import Mathlib

/-
Verification of the undo/redo history controller of the two-panel
synchronized editor (source: src/App.tsx).

The history core is embedded shallowly:
 - `HistoryState` is the pair of React states `history : string[]` and
   `historyIndex : number`.
 - `commit` is the body of the debounced save callback (App.tsx lines 44-56):
   truncate to the cursor, discard duplicates of the truncated list's last
   element, otherwise push and move the cursor to the new last index.
 - `stepBack` / `stepForward` are the cursor moves of `handleUndo` /
   `handleRedo` (App.tsx lines 71-87); `canStepBack` / `canStepForward`
   are `canUndo` / `canRedo` (App.tsx lines 89-90).
 - `AppState` adds the snapshot store (`content`), the navigation guard
   (`isNavigatingHistory` ref) and the debounce timer, modelled as the
   absolute time at which the pending scheduled commit would fire.
 - `contentChange` is one run of the `useEffect` on a content change,
   including the React cleanup of the previous effect run, which clears
   the outstanding timer before the new body executes.
 - `fireTimer` is the timer callback actually firing.
JavaScript's `history.length - 1` on an empty array is `-1`; every
comparison the code makes against it (`cursor < length - 1`) is false
exactly when the Lean counterpart over truncated Nat subtraction is
false, so Nat subtraction is a faithful translation here.
-/

namespace SyncEditor

/-- The seed document (`INITIAL_CONTENT` in src/App.tsx), kept verbatim. -/
def INITIAL_CONTENT : String :=
  "<h1>Welcome to the Sync Editor!</h1>\n<p>This is a demonstration of a <strong>bidirectional editor</strong>. You can edit the rich text on the left, or the raw HTML on the right.</p>\n<p><br></p>\n<p>Try some things:</p>\n<ul>\n    <li>Change the <span style=\"color: rgb(230, 0, 0);\">color</span> of this text.</li>\n    <li>Make a word <em>italic</em> or <u>underlined</u>.</li>\n    <li>Add a new heading or a list item.</li>\n</ul>\n<p><br></p>\n<p>Your changes will be reflected in the other panel <em>instantly</em>.</p>"

/-- The History Stack: the `history` array and the `historyIndex` cursor of
src/App.tsx lines 26-27. -/
structure HistoryState where
  entries : List String
  cursor : Nat
deriving Repr, DecidableEq

/-- Commit of a snapshot, the body of the debounced callback in src/App.tsx
lines 44-56: slice the entries to `[0..cursor]`, return unchanged when the
sliced list ends in the same snapshot, otherwise push and set the cursor to
the new last index. -/
def commit (s : String) (h : HistoryState) : HistoryState :=
  let newHistory := h.entries.take (h.cursor + 1)
  if newHistory.getLast? = some s then h
  else { entries := newHistory ++ [s], cursor := (newHistory ++ [s]).length - 1 }

/-- Cursor move of `handleUndo` (src/App.tsx lines 71-78): decrement the
cursor when it is positive, otherwise do nothing. -/
def stepBack (h : HistoryState) : HistoryState :=
  if 0 < h.cursor then { h with cursor := h.cursor - 1 } else h

/-- Cursor move of `handleRedo` (src/App.tsx lines 80-87): increment the
cursor when it is below the last index, otherwise do nothing. -/
def stepForward (h : HistoryState) : HistoryState :=
  if h.cursor < h.entries.length - 1 then { h with cursor := h.cursor + 1 } else h

/-- The query `canUndo` (src/App.tsx line 89). -/
def canStepBack (h : HistoryState) : Bool :=
  decide (0 < h.cursor)

/-- The query `canRedo` (src/App.tsx line 90). -/
def canStepForward (h : HistoryState) : Bool :=
  decide (h.cursor < h.entries.length - 1)

/-- States of the History Stack reachable from the seeded initial state
(`[INITIAL_CONTENT]`, cursor 0; src/App.tsx lines 26-27) by any sequence of
commit, stepBack and stepForward operations. The seed snapshot is kept
abstract. -/
inductive Reachable (init : String) : HistoryState → Prop where
  | seed : Reachable init ⟨[init], 0⟩
  | cstep (s : String) {h : HistoryState} :
      Reachable init h → Reachable init (commit s h)
  | bstep {h : HistoryState} : Reachable init h → Reachable init (stepBack h)
  | fstep {h : HistoryState} : Reachable init h → Reachable init (stepForward h)

/-- The debounce delay of src/App.tsx line 56, in milliseconds. -/
def DEBOUNCE_DELAY : Nat := 500

/-- The full state the App component holds around the history core:
the snapshot store `content`, the History Stack, the navigation guard
(the `isNavigatingHistory` ref) and the pending debounce timer, modelled
as the absolute time at which the scheduled callback fires (`none` when no
timer is outstanding). -/
structure AppState where
  content : String
  history : List String
  historyIndex : Nat
  isNavigatingHistory : Bool
  deadline : Option Nat
deriving Repr, DecidableEq

/-- One processing of a content-change notification at time `now` carrying
snapshot `s`: `setContent` followed by the `useEffect` body of src/App.tsx
lines 31-64. React runs the cleanup of the previous effect first, which
clears any outstanding debounce timer; the body then either consumes the
navigation guard and returns, or schedules a commit `DEBOUNCE_DELAY` time
units ahead. -/
def contentChange (now : Nat) (s : String) (st : AppState) : AppState :=
  if st.isNavigatingHistory then
    { st with content := s, deadline := none, isNavigatingHistory := false }
  else
    { st with content := s, deadline := some (now + DEBOUNCE_DELAY) }

/-- The scheduled debounce callback firing (src/App.tsx lines 44-56): commit
the content current at fire time into the history, clearing the timer. A
state with no outstanding timer is left unchanged. -/
def fireTimer (st : AppState) : AppState :=
  match st.deadline with
  | none => st
  | some _ =>
    let newHistory := st.history.take (st.historyIndex + 1)
    if newHistory.getLast? = some st.content then { st with deadline := none }
    else
      { st with
        history := newHistory ++ [st.content]
        historyIndex := (newHistory ++ [st.content]).length - 1
        deadline := none }

/-- The `handleUndo` callback of src/App.tsx lines 71-78: when the cursor is
positive, set the navigation guard, decrement the cursor and restore the
snapshot at the new cursor into the store. -/
def handleUndo (st : AppState) : AppState :=
  if 0 < st.historyIndex then
    { st with
      isNavigatingHistory := true
      historyIndex := st.historyIndex - 1
      content := st.history.getD (st.historyIndex - 1) st.content }
  else st

/-- The `handleRedo` callback of src/App.tsx lines 80-87: when the cursor is
below the last index, set the navigation guard, increment the cursor and
restore the snapshot at the new cursor into the store. -/
def handleRedo (st : AppState) : AppState :=
  if st.historyIndex < st.history.length - 1 then
    { st with
      isNavigatingHistory := true
      historyIndex := st.historyIndex + 1
      content := st.history.getD (st.historyIndex + 1) st.content }
  else st

/-- One externally arriving content-change event `(time, snapshot)`: if an
outstanding timer's deadline has already passed, the single-threaded event
loop runs that callback before the new event is processed; then the event
itself is processed. -/
def stepEvent (st : AppState) (ev : Nat × String) : AppState :=
  let st1 :=
    match st.deadline with
    | some d => if d ≤ ev.1 then fireTimer st else st
    | none => st
  contentChange ev.1 ev.2 st1

/-- Processing a whole timestamped event sequence. -/
def runEvents (st : AppState) (evs : List (Nat × String)) : AppState :=
  evs.foldl stepEvent st

/-- The events of a list all happen after time `t`, each within strictly less
than `DEBOUNCE_DELAY` time units of its predecessor (the first one within
the window opened at `t`). -/
def withinWindow : Nat → List (Nat × String) → Prop
  | _, [] => True
  | t, (t1, _) :: rest => t ≤ t1 ∧ t1 < t + DEBOUNCE_DELAY ∧ withinWindow t1 rest

/-- A rapid burst: consecutive events are each separated by strictly less
than the debounce interval. -/
def rapidBurst : List (Nat × String) → Prop
  | [] => True
  | (t1, _) :: rest => withinWindow t1 rest

/-! Helper lemmas about the history core. -/

/-- The last element of the slice `entries.take (cursor + 1)` is the entry at
the cursor, whenever the cursor is in bounds. -/
theorem take_cursor_getLast (h : HistoryState) (hv : h.cursor < h.entries.length) :
    (h.entries.take (h.cursor + 1)).getLast? = h.entries[h.cursor]? := by
  rw [List.getLast?_take]
  simp [List.getElem?_eq_getElem hv]

/-- Claim C1: for every stack state with the cursor in bounds and every
snapshot `s`, `commit s` is a no-op when `s` equals the entry at the cursor;
otherwise it truncates the entries to indices `0..cursor` inclusive, appends
`s`, and sets the cursor to the new last index. -/
theorem commit_contract (h : HistoryState) (s : String)
    (hv : h.cursor < h.entries.length) :
    (h.entries[h.cursor]? = some s → commit s h = h) ∧
    (h.entries[h.cursor]? ≠ some s →
      (commit s h).entries = h.entries.take (h.cursor + 1) ++ [s] ∧
      (commit s h).cursor = (commit s h).entries.length - 1) := by
  have hlast := take_cursor_getLast h hv
  constructor
  · intro he
    simp [commit, hlast, he]
  · intro he
    have hcond : ¬ ((h.entries.take (h.cursor + 1)).getLast? = some s) := by
      rw [hlast]
      exact he
    simp [commit, hcond]

theorem commit_contract_witness :
    commit "b" ⟨["a", "b"], 1⟩ = ⟨["a", "b"], 1⟩ :=
  (commit_contract ⟨["a", "b"], 1⟩ "b" (by decide)).1 (by decide)

/-- Claim C4: committing while the cursor is behind the last index discards
the entries after the cursor: from entries `[A, B, C]` with cursor 2,
`stepBack` yields cursor 1, and a subsequent `commit D` with `D ≠ B` yields
entries `[A, B, D]` with cursor 2. -/
theorem commit_after_stepBack (A B C D : String) (hD : D ≠ B) :
    stepBack ⟨[A, B, C], 2⟩ = ⟨[A, B, C], 1⟩ ∧
    commit D (stepBack ⟨[A, B, C], 2⟩) = ⟨[A, B, D], 2⟩ := by
  constructor
  · simp [stepBack]
  · simp [stepBack, commit, List.take, hD.symm]

theorem commit_after_stepBack_witness :
    commit "D" (stepBack ⟨["A", "B", "C"], 2⟩) = ⟨["A", "B", "D"], 2⟩ :=
  (commit_after_stepBack "A" "B" "C" "D" (by decide)).2

/-- Claim C7: `stepBack` at cursor 0 and `stepForward` at the last index are
silent no-ops leaving the state unchanged (every operation of the core is a
total function, so none raises an error), and `canStepBack` /
`canStepForward` return exactly `cursor > 0` and `cursor < length - 1`. -/
theorem boundary_noops (h : HistoryState) :
    (h.cursor = 0 → stepBack h = h) ∧
    (h.cursor = h.entries.length - 1 → stepForward h = h) ∧
    (canStepBack h = true ↔ 0 < h.cursor) ∧
    (canStepForward h = true ↔ h.cursor < h.entries.length - 1) := by
  refine ⟨?_, ?_, ?_, ?_⟩
  · intro h0
    simp [stepBack, h0]
  · intro h0
    simp [stepForward, h0]
  · simp [canStepBack]
  · simp [canStepForward]

theorem boundary_noops_witness :
    stepBack ⟨["a", "b"], 0⟩ = ⟨["a", "b"], 0⟩ ∧
    stepForward ⟨["a", "b"], 1⟩ = ⟨["a", "b"], 1⟩ :=
  ⟨(boundary_noops ⟨["a", "b"], 0⟩).1 rfl,
   (boundary_noops ⟨["a", "b"], 1⟩).2.1 rfl⟩

/-- Claim C10: whenever `canStepBack` holds on a state with the cursor in
bounds, `stepBack` followed by `stepForward` restores the state exactly;
symmetrically, whenever `canStepForward` holds, `stepForward` followed by
`stepBack` is the identity. -/
theorem step_roundtrip (h : HistoryState) (hv : h.cursor < h.entries.length) :
    (canStepBack h = true → stepForward (stepBack h) = h) ∧
    (canStepForward h = true → stepBack (stepForward h) = h) := by
  obtain ⟨es, c⟩ := h
  constructor
  · intro hb
    have h0 : 0 < c := by simpa [canStepBack] using hb
    have h1 : c - 1 < es.length - 1 := by
      simp only at hv
      omega
    simp only [stepBack, stepForward, h0, if_pos, h1]
    simp
    omega
  · intro hf
    have h0 : c < es.length - 1 := by simpa [canStepForward] using hf
    simp only [stepForward, stepBack, h0, if_pos]
    simp

theorem step_roundtrip_witness :
    stepForward (stepBack ⟨["a", "b"], 1⟩) = ⟨["a", "b"], 1⟩ :=
  (step_roundtrip ⟨["a", "b"], 1⟩ (by decide)).1 (by decide)

/-- Master invariant of reachable History Stack states: the entries are
non-empty, the cursor is in bounds, the first entry is the seed, and no two
consecutive entries are equal. -/
theorem reachable_invariants {init : String} {st : HistoryState}
    (h : Reachable init st) :
    st.entries ≠ [] ∧ st.cursor < st.entries.length ∧
    st.entries.head? = some init ∧ st.entries.Chain' (· ≠ ·) := by
  induction h with
  | seed => simp
  | @cstep s h hr ih =>
    obtain ⟨hne, hlt, hhead, hchain⟩ := ih
    by_cases hdup : (List.take (h.cursor + 1) h.entries).getLast? = some s
    · simpa [commit, hdup] using ⟨hne, hlt, hhead, hchain⟩
    · have htake : List.take (h.cursor + 1) h.entries ≠ [] := by
        simp [List.take_eq_nil_iff, hne]
      have hch : (List.take (h.cursor + 1) h.entries ++ [s]).Chain' (· ≠ ·) := by
        rw [List.chain'_append]
        refine ⟨ hchain.prefix (List.take_prefix _ _), List.chain'_singleton s, ?_⟩
        intro x hx y hy hxy
        rw [Option.mem_def] at hx
        simp only [List.head?_cons, Option.mem_def, Option.some.injEq] at hy
        exact hdup (hx.trans (congrArg some (hxy.trans hy.symm)))
      have hhd : (List.take (h.cursor + 1) h.entries ++ [s]).head? = some init := by
        rw [List.head?_append_of_ne_nil _ htake, List.head?_take]
        simp [hhead]
      refine ⟨?_, ?_, ?_, ?_⟩
      · simp [commit, hdup]
      · simp [commit, hdup]
      · simpa [commit, hdup] using hhd
      · simpa [commit, hdup] using hch
  | @bstep h hr ih =>
    obtain ⟨hne, hlt, hhead, hchain⟩ := ih
    unfold stepBack
    split
    · exact ⟨hne, by simp only; omega, hhead, hchain⟩
    · exact ⟨hne, hlt, hhead, hchain⟩
  | @fstep h hr ih =>
    obtain ⟨hne, hlt, hhead, hchain⟩ := ih
    unfold stepForward
    split
    · exact ⟨hne, by simp only; omega, hhead, hchain⟩
    · exact ⟨hne, hlt, hhead, hchain⟩

/-- Claim C5: in every state reachable from the seeded stack by commit,
stepBack and stepForward operations, the entries never contain two
consecutive equal snapshots. -/
theorem no_adjacent_duplicates {init : String} {st : HistoryState}
    (h : Reachable init st) : st.entries.Chain' (· ≠ ·) :=
  (reachable_invariants h).2.2.2

theorem no_adjacent_duplicates_witness :
    (commit "y" (stepBack (commit "x" ⟨["s"], 0⟩))).entries.Chain' (· ≠ ·) :=
  no_adjacent_duplicates
    (Reachable.cstep "y" (Reachable.bstep (Reachable.cstep "x" Reachable.seed)))

/-- Claim C6: in every reachable state the entries are non-empty and the
cursor satisfies `0 ≤ cursor ≤ length - 1`, so the entry at the cursor is
always defined. -/
theorem cursor_in_bounds {init : String} {st : HistoryState}
    (h : Reachable init st) :
    st.entries ≠ [] ∧ st.cursor ≤ st.entries.length - 1 ∧
    st.entries[st.cursor]? ≠ none := by
  obtain ⟨hne, hlt, -, -⟩ := reachable_invariants h
  exact ⟨hne, by omega, by simp [List.getElem?_eq_getElem hlt]⟩

theorem cursor_in_bounds_witness :
    (stepForward (stepBack (commit "x" ⟨["s"], 0⟩))).entries ≠ [] ∧
    (stepForward (stepBack (commit "x" ⟨["s"], 0⟩))).cursor ≤
      (stepForward (stepBack (commit "x" ⟨["s"], 0⟩))).entries.length - 1 ∧
    (stepForward (stepBack (commit "x" ⟨["s"], 0⟩))).entries[
      (stepForward (stepBack (commit "x" ⟨["s"], 0⟩))).cursor]? ≠ none :=
  cursor_in_bounds
    (Reachable.fstep (Reachable.bstep (Reachable.cstep "x" Reachable.seed)))

/-- Claim C9: in every reachable state the first entry is the seed snapshot:
no sequence of commit, stepBack or stepForward operations removes or
replaces it. -/
theorem seed_entry_preserved {init : String} {st : HistoryState}
    (h : Reachable init st) : st.entries[0]? = some init := by
  have hhead := (reachable_invariants h).2.2.1
  rwa [← List.head?_eq_getElem?]

theorem seed_entry_preserved_witness :
    (commit "z" (commit "y" (stepBack (commit "x" ⟨["s"], 0⟩)))).entries[0]? =
      some "s" :=
  seed_entry_preserved
    (Reachable.cstep "z"
      (Reachable.cstep "y" (Reachable.bstep (Reachable.cstep "x" Reachable.seed))))

/-- Claim C3: whenever `handleUndo` performs a navigation (cursor positive),
the guard is set, and the immediately following content-change notification
carrying the restored snapshot clears the guard, schedules no commit and
leaves the history untouched; the guard is consumed at most once, so the
very next content change after that schedules a commit normally. -/
theorem guard_consumed_once (st : AppState) (t u : Nat) (s : String)
    (hc : 0 < st.historyIndex) :
    (handleUndo st).isNavigatingHistory = true ∧
    (contentChange t (handleUndo st).content (handleUndo st)).isNavigatingHistory
      = false ∧
    (contentChange t (handleUndo st).content (handleUndo st)).deadline = none ∧
    (contentChange t (handleUndo st).content (handleUndo st)).history
      = st.history ∧
    (contentChange t (handleUndo st).content (handleUndo st)).history.length
      = st.history.length ∧
    (contentChange u s
        (contentChange t (handleUndo st).content (handleUndo st))).deadline
      = some (u + DEBOUNCE_DELAY) := by
  simp [handleUndo, contentChange, hc]

theorem guard_consumed_once_witness :
    (contentChange 7 (handleUndo ⟨"b", ["a", "b"], 1, false, none⟩).content
        (handleUndo ⟨"b", ["a", "b"], 1, false, none⟩)).history.length =
      (["a", "b"] : List String).length :=
  (guard_consumed_once ⟨"b", ["a", "b"], 1, false, none⟩ 7 9 "c"
    (by decide)).2.2.2.2.1

/-- Claim C8, as stated, is refuted: `handleUndo` does not modify only the
cursor and the stored snapshot — it also sets the navigation guard. Concrete
input: content `"b"`, history `["a", "b"]`, cursor 1, guard clear, no
pending timer. -/
theorem undo_modifies_guard :
    ¬ ((handleUndo ⟨"b", ["a", "b"], 1, false, none⟩).isNavigatingHistory =
        (⟨"b", ["a", "b"], 1, false, none⟩ : AppState).isNavigatingHistory) := by
  decide

/-- Claim C8, amended: `handleUndo` and `handleRedo` leave the entries list
unchanged (same length, same snapshots in the same order) and leave the
pending timer unchanged; they modify only the cursor, the stored snapshot
and the navigation guard. -/
theorem undo_redo_frame (st : AppState) :
    (handleUndo st).history = st.history ∧
    (handleRedo st).history = st.history ∧
    (handleUndo st).deadline = st.deadline ∧
    (handleRedo st).deadline = st.deadline := by
  refine ⟨?_, ?_, ?_, ?_⟩ <;> simp only [handleUndo, handleRedo] <;> split <;> rfl

/-- Firing a pending timer performs exactly one `commit` of the content
current at fire time, clears the timer and changes nothing else. -/
theorem fireTimer_commits (st : AppState) (d : Nat) (hd : st.deadline = some d) :
    fireTimer st =
      { content := st.content
        history := (commit st.content ⟨st.history, st.historyIndex⟩).entries
        historyIndex := (commit st.content ⟨st.history, st.historyIndex⟩).cursor
        isNavigatingHistory := st.isNavigatingHistory
        deadline := none } := by
  obtain ⟨c, hist, idx, g, dl⟩ := st
  simp only at hd
  subst hd
  simp only [fireTimer, commit]
  split <;> simp_all

/-- During a burst of content changes each arriving strictly inside the
window opened by its predecessor, no pending timer ever fires: the run just
tracks the latest content and keeps rescheduling the single timer, leaving
the history, the cursor and the clear guard untouched. -/
theorem runEvents_window (evs : List (Nat × String)) :
    ∀ (st : AppState) (t tl : Nat) (sl : String),
      st.isNavigatingHistory = false →
      st.deadline = some (t + DEBOUNCE_DELAY) →
      withinWindow t evs → evs.getLast? = some (tl, sl) →
      runEvents st evs =
        { st with content := sl, deadline := some (tl + DEBOUNCE_DELAY) } := by
  induction evs with
  | nil =>
    intro st t tl sl _ _ _ hl
    simp at hl
  | cons ev rest ih =>
    intro st t tl sl hg hd hw hl
    obtain ⟨t1, s1⟩ := ev
    obtain ⟨h1, h2, h3⟩ := hw
    have hnofire : ¬ (t + DEBOUNCE_DELAY ≤ t1) := by omega
    have hstep : stepEvent st (t1, s1) =
        { st with content := s1, deadline := some (t1 + DEBOUNCE_DELAY) } := by
      simp [stepEvent, hd, hnofire, contentChange, hg]
    have hrun : runEvents st ((t1, s1) :: rest) =
        runEvents { st with content := s1, deadline := some (t1 + DEBOUNCE_DELAY) }
          rest := by
      simp only [runEvents, List.foldl_cons, hstep]
    rw [hrun]
    cases rest with
    | nil =>
      simp only [List.getLast?_singleton, Option.some.injEq, Prod.mk.injEq] at hl
      obtain ⟨rfl, rfl⟩ := hl
      rfl
    | cons r rs =>
      rw [List.getLast?_cons_cons] at hl
      rw [ih _ t1 tl sl (by simp [hg]) rfl h3 hl]

/-- Claim C2: for every burst of content-change events with consecutive
events separated by strictly less than the debounce interval, starting with
the guard clear and no pending timer, exactly one commit happens once the
quiet window elapses, and it commits the last snapshot of the burst against
the original stack. -/
theorem debounce_coalescing (st : AppState) (evs : List (Nat × String))
    (tl : Nat) (sl : String)
    (hg : st.isNavigatingHistory = false) (hd : st.deadline = none)
    (hl : evs.getLast? = some (tl, sl)) (hw : rapidBurst evs) :
    fireTimer (runEvents st evs) =
      { content := sl
        history := (commit sl ⟨st.history, st.historyIndex⟩).entries
        historyIndex := (commit sl ⟨st.history, st.historyIndex⟩).cursor
        isNavigatingHistory := false
        deadline := none } := by
  cases evs with
  | nil => simp at hl
  | cons ev rest =>
    obtain ⟨t1, s1⟩ := ev
    have hstep : stepEvent st (t1, s1) =
        { st with content := s1, deadline := some (t1 + DEBOUNCE_DELAY) } := by
      simp [stepEvent, hd, contentChange, hg]
    have hrun : runEvents st ((t1, s1) :: rest) =
        runEvents { st with content := s1, deadline := some (t1 + DEBOUNCE_DELAY) }
          rest := by
      simp only [runEvents, List.foldl_cons, hstep]
    rw [hrun]
    cases rest with
    | nil =>
      simp only [List.getLast?_singleton, Option.some.injEq, Prod.mk.injEq] at hl
      obtain ⟨rfl, rfl⟩ := hl
      have hnil : runEvents
          { st with content := s1, deadline := some (t1 + DEBOUNCE_DELAY) } [] =
          { st with content := s1, deadline := some (t1 + DEBOUNCE_DELAY) } := rfl
      rw [hnil, fireTimer_commits _ _ rfl]
      simp [hg]
    | cons r rs =>
      rw [List.getLast?_cons_cons] at hl
      rw [runEvents_window (r :: rs) _ t1 tl sl (by simp [hg]) rfl hw hl]
      rw [fireTimer_commits _ (tl + DEBOUNCE_DELAY) rfl]
      simp [hg]

theorem debounce_coalescing_witness :
    fireTimer (runEvents ⟨"A", ["A"], 0, false, none⟩
        [(0, "B"), (100, "C"), (199, "D")]) =
      { content := "D"
        history := (commit "D" ⟨["A"], 0⟩).entries
        historyIndex := (commit "D" ⟨["A"], 0⟩).cursor
        isNavigatingHistory := false
        deadline := none } :=
  debounce_coalescing ⟨"A", ["A"], 0, false, none⟩
    [(0, "B"), (100, "C"), (199, "D")] 199 "D" rfl rfl (by simp)
    ⟨by norm_num [DEBOUNCE_DELAY], by norm_num [DEBOUNCE_DELAY],
     by norm_num [DEBOUNCE_DELAY], by norm_num [DEBOUNCE_DELAY], trivial⟩

end SyncEditor

